/-
Verification of the neural-network notebook collection
(artificial_neural_networks): a configurable ConvNet builder, its
train/evaluate glue, and the sequence padding/packing experiments.

The Python code is shallowly embedded: each definition below mirrors one
function or cell of the notebooks.  Machine integers are modelled as Int,
Python exceptions as an explicit error type, tensors as shape-indexed
flat lists, and the framework primitives used by the notebooks
(pad_sequence, pack_padded_sequence, torch.sort, gather, the RNN step)
by their documented semantics.
-/
import Mathlib

/-! ## The layer-type key normalisation

`ConvNet.__init__` normalises each key of the architecture dictionary with
`re.sub(r"_[\d\w]+", "", layer_type)`: every occurrence of an underscore
followed by a maximal nonempty run of word characters is deleted. -/

/-- Python regex word character (ASCII): letter, digit or underscore. -/
def isWordChar (c : Char) : Bool :=
  c.isAlphanum || c = '_'

/-- Drop the maximal leading run of word characters. -/
def dropWordRun : List Char → List Char
  | [] => []
  | c :: cs => if isWordChar c then dropWordRun cs else c :: cs

/-- One fuel-indexed pass of `re.sub(r"_[\d\w]+", "", s)`: scanning left to
right, an underscore followed by at least one word character starts a match
that greedily consumes the whole word-character run; everything matched is
deleted.  The fuel only bounds the recursion (each step consumes at least
one character), so `stripLayerSuffix` below always supplies enough. -/
def stripGo : Nat → List Char → List Char
  | 0, s => s
  | _ + 1, [] => []
  | fuel + 1, c :: cs =>
    if c = '_' && (match cs with | [] => false | d :: _ => isWordChar d) then
      stripGo fuel (dropWordRun cs)
    else
      c :: stripGo fuel cs

/-- `re.sub(r"_[\d\w]+", "", s)` on a character list. -/
def stripLayerSuffix (s : List Char) : List Char :=
  stripGo s.length s

/-- The key normalisation applied to each architecture key. -/
def stripString (s : String) : String :=
  ⟨stripLayerSuffix s.data⟩

/-! ## Layers and the ConvNet constructor -/

/-- The layer objects `ConvNet.__init__` can append, with the constructor
arguments it passes. -/
inductive Layer where
  | conv2d (in_channels out_channels kernel_size stride padding : Int)
  | avgPool2d (kernel_size stride padding : Int)
  | maxPool2d (kernel_size stride padding : Int)
  | flatten
  | linear (input_size output_size : Int)
  | relu
  | sigmoid
  | tanh
  deriving DecidableEq, Repr

/-- The Python exceptions the constructor and evaluation code can raise. -/
inductive PyError where
  | valueError (msg : String)
  | typeError (msg : String)
  | zeroDivisionError
  deriving DecidableEq, Repr

/-- Layer parameters as they appear in the architecture dictionary:
`None` or a tuple of integers. -/
def LayerParams : Type := Option (List Int)

/-- Python tuple unpacking `a, b = p` (two targets): `None` raises
TypeError, a tuple of the wrong length raises ValueError. -/
def unpack2 : Option (List Int) → Except PyError (Int × Int)
  | Option.none => .error (.typeError "cannot unpack non-iterable NoneType object")
  | some [a, b] => .ok (a, b)
  | some xs =>
    if xs.length < 2 then .error (.valueError "not enough values to unpack")
    else .error (.valueError "too many values to unpack")

/-- Python tuple unpacking with three targets. -/
def unpack3 : Option (List Int) → Except PyError (Int × Int × Int)
  | Option.none => .error (.typeError "cannot unpack non-iterable NoneType object")
  | some [a, b, c] => .ok (a, b, c)
  | some xs =>
    if xs.length < 3 then .error (.valueError "not enough values to unpack")
    else .error (.valueError "too many values to unpack")

/-- Python tuple unpacking with five targets. -/
def unpack5 : Option (List Int) → Except PyError (Int × Int × Int × Int × Int)
  | Option.none => .error (.typeError "cannot unpack non-iterable NoneType object")
  | some [a, b, c, d, e] => .ok (a, b, c, d, e)
  | some xs =>
    if xs.length < 5 then .error (.valueError "not enough values to unpack")
    else .error (.valueError "too many values to unpack")

/-- One iteration of the constructor loop: normalise the key, dispatch on
the eight handled strings (note the misspelled "Sigmod" branch), unpack
the parameters the branch needs and build the layer; an unhandled type
raises `ValueError(f"Unsupported layer type: {layer_type}")`. -/
def buildLayer (layer_type : String) (layer_params : Option (List Int)) :
    Except PyError Layer :=
  let lt := stripString layer_type
  if lt = "Conv2d" then
    match unpack5 layer_params with
    | .error e => .error e
    | .ok (in_channels, out_channels, kernel_size, stride, padding) =>
      .ok (Layer.conv2d in_channels out_channels kernel_size stride padding)
  else if lt = "AvgPool2d" then
    match unpack3 layer_params with
    | .error e => .error e
    | .ok (kernel_size, stride, padding) => .ok (Layer.avgPool2d kernel_size stride padding)
  else if lt = "MaxPool2d" then
    match unpack3 layer_params with
    | .error e => .error e
    | .ok (kernel_size, stride, padding) => .ok (Layer.maxPool2d kernel_size stride padding)
  else if lt = "Flatten" then
    .ok Layer.flatten
  else if lt = "Linear" then
    match unpack2 layer_params with
    | .error e => .error e
    | .ok (input_size, output_size) => .ok (Layer.linear input_size output_size)
  else if lt = "ReLU" then
    .ok Layer.relu
  else if lt = "Sigmod" then
    .ok Layer.sigmoid
  else if lt = "Tanh" then
    .ok Layer.tanh
  else
    .error (.valueError ("Unsupported layer type: " ++ lt))

/-- `ConvNet.__init__`: iterate over the architecture dictionary's entries
in insertion order, appending one layer per entry; the first exception
aborts the construction. -/
def convNetInit : List (String × Option (List Int)) → Except PyError (List Layer)
  | [] => .ok []
  | (layer_type, layer_params) :: rest =>
    match buildLayer layer_type layer_params with
    | .error e => .error e
    | .ok l =>
      match convNetInit rest with
      | .error e => .error e
      | .ok ls => .ok (l :: ls)

/-- The eight strings the dispatch chain handles. -/
def handledTypes : List String :=
  ["Conv2d", "AvgPool2d", "MaxPool2d", "Flatten", "Linear", "ReLU", "Sigmod", "Tanh"]

/-- The parameter tuple has the arity the handled branch unpacks
(no-parameter branches accept anything). -/
def paramsArityOK (lt : String) (p : Option (List Int)) : Bool :=
  if lt = "Conv2d" then
    match p with | some xs => xs.length = 5 | Option.none => false
  else if lt = "AvgPool2d" || lt = "MaxPool2d" then
    match p with | some xs => xs.length = 3 | Option.none => false
  else if lt = "Linear" then
    match p with | some xs => xs.length = 2 | Option.none => false
  else
    true

/-- The layer an architecture entry describes: its type is named by the
stripped key and its constructor receives exactly the entry's tuple. -/
inductive EntryBuilds : String × Option (List Int) → Layer → Prop where
  | conv2d (k : String) (a b c d e : Int) (h : stripString k = "Conv2d") :
      EntryBuilds (k, some [a, b, c, d, e]) (Layer.conv2d a b c d e)
  | avgPool2d (k : String) (a b c : Int) (h : stripString k = "AvgPool2d") :
      EntryBuilds (k, some [a, b, c]) (Layer.avgPool2d a b c)
  | maxPool2d (k : String) (a b c : Int) (h : stripString k = "MaxPool2d") :
      EntryBuilds (k, some [a, b, c]) (Layer.maxPool2d a b c)
  | flatten (k : String) (p : Option (List Int)) (h : stripString k = "Flatten") :
      EntryBuilds (k, p) Layer.flatten
  | linear (k : String) (a b : Int) (h : stripString k = "Linear") :
      EntryBuilds (k, some [a, b]) (Layer.linear a b)
  | relu (k : String) (p : Option (List Int)) (h : stripString k = "ReLU") :
      EntryBuilds (k, p) Layer.relu
  | sigmoid (k : String) (p : Option (List Int)) (h : stripString k = "Sigmod") :
      EntryBuilds (k, p) Layer.sigmoid
  | tanh (k : String) (p : Option (List Int)) (h : stripString k = "Tanh") :
      EntryBuilds (k, p) Layer.tanh

/-- `ConvNet.forward`: feed the input through the layers list in order,
for an arbitrary layer semantics `app` over an arbitrary tensor type. -/
def forwardLoop {T : Type} (app : Layer → T → T) (layers : List Layer) (x : T) : T :=
  layers.foldl (fun y l => app l y) x

/-- The left-to-right sequential composition of the layers, written as a
composition of functions: the output of each layer is the input of the
next.  This is the specification side of claim C2. -/
def layerComposition {T : Type} (app : Layer → T → T) (layers : List Layer) : T → T :=
  layers.foldr (fun l rest => rest ∘ app l) id

/-- The LeNet-5 architecture dictionary built in the notebook. -/
def lenet5Arch : List (String × Option (List Int)) :=
  [("Conv2d_1", some [1, 6, 5, 1, 2]),
   ("Tanh_1a", Option.none),
   ("AvgPool2d_1", some [2, 2, 0]),
   ("Tanh_1b", Option.none),
   ("Conv2d_2", some [6, 16, 5, 1, 0]),
   ("Tanh_2a", Option.none),
   ("AvgPool2d_2", some [2, 2, 0]),
   ("Tanh_2b", Option.none),
   ("Flatten_3", Option.none),
   ("Linear_4", some [400, 120]),
   ("Tanh_4", Option.none),
   ("Linear_5", some [120, 84]),
   ("Tanh_5", Option.none),
   ("Linear_6", some [84, 10])]

/-! ## The evaluate function

`evaluate(model, test_data)` iterates over batches, takes the per-row
argmax of the model scores (`torch.max(output.data, 1)`), accumulates the
sample count and the number of correct predictions, and reports
`100 * correct / total`.  The model is threaded through the loop
unchanged: the body only reads it (no optimiser step runs and gradients
are disabled). -/

/-- Helper for `argmaxIdx`: scan the remaining scores keeping the first
index that attains the running maximum. -/
def argmaxAux (best : Int) (bestIdx cur : Nat) : List Int → Nat
  | [] => bestIdx
  | x :: xs =>
    if best < x then argmaxAux x cur (cur + 1) xs
    else argmaxAux best bestIdx (cur + 1) xs

/-- The index returned by `torch.max(scores, dim)` for one row: the first
index of the maximal score. -/
def argmaxIdx : List Int → Nat
  | [] => 0
  | x :: xs => argmaxAux x 0 1 xs

/-- One iteration of the evaluate loop over a batch of (image, label)
pairs: run the model on the images, take the row-wise argmax, and add the
batch size to `total` and the number of matching predictions to
`correct`. -/
def evalBatchStep {I : Type} (model : I → List Int) (acc : Nat × Nat)
    (data : List (I × Nat)) : Nat × Nat :=
  let images := data.map Prod.fst
  let truth := data.map Prod.snd
  let output := images.map model
  let predicted := output.map argmaxIdx
  (acc.1 + truth.length,
   acc.2 + (List.zipWith (fun p t => decide (p = t)) predicted truth).count true)

/-- The evaluate loop, threading the model parameters through unchanged. -/
def evaluateLoop {P I : Type} (forwardOf : P → I → List Int) (p : P)
    (test_data : List (List (I × Nat))) : (Nat × Nat) × P :=
  test_data.foldl (fun acc data => (evalBatchStep (forwardOf acc.2) acc.1 data, acc.2))
    ((0, 0), p)

/-- `evaluate(model, test_data)`: the reported accuracy
`100 * correct / total` (exact rational arithmetic stands in for the
Python float division; an empty dataset raises ZeroDivisionError), paired
with the model parameters after the loop. -/
def evaluate {P I : Type} (forwardOf : P → I → List Int) (p : P)
    (test_data : List (List (I × Nat))) : Except PyError Rat × P :=
  let r := evaluateLoop forwardOf p test_data
  let total := r.1.1
  let correct := r.1.2
  (if total = 0 then .error .zeroDivisionError
   else .ok (100 * (correct : Rat) / (total : Rat)), r.2)

/-! ## Tensors and the Flatten module

A tensor is a shape plus its elements in row-major order.  Degenerate
zero-sized dimensions are excluded from the model (every notebook tensor
has positive dimensions). -/

/-- A tensor: shape, row-major data, the size invariant, and positivity
of every dimension. -/
structure Tensor (γ : Type) where
  shape : List Nat
  data : List γ
  size_eq : data.length = shape.prod
  dims_pos : ∀ d ∈ shape, 0 < d

/-- `x.view(d0, -1)`: reinterpret the storage as a two-dimensional tensor
whose first dimension is `d0` and whose second is inferred from the
element count; fails when `d0` is zero or does not divide the element
count.  The storage is shared, so the data is unchanged. -/
def Tensor.view2InferLast {γ : Type} (x : Tensor γ) (d0 : Nat) : Option (Tensor γ) :=
  if h : 0 < d0 ∧ d0 ∣ x.data.length ∧ 0 < x.data.length / d0 then
    some { shape := [d0, x.data.length / d0]
           data := x.data
           size_eq := by
             simp only [List.prod_cons, List.prod_nil, mul_one]
             rw [Nat.mul_div_cancel_left' h.2.1]
           dims_pos := by
             intro d hd
             simp only [List.mem_cons, List.not_mem_nil, or_false] at hd
             rcases hd with rfl | rfl
             · exact h.1
             · exact h.2.2 }
  else
    Option.none

/-- `Flatten.forward`: `x.view(x.size()[0], -1)`.  A zero-dimensional
tensor has an empty size list, so `x.size()[0]` fails. -/
def flattenForward {γ : Type} (x : Tensor γ) : Option (Tensor γ) :=
  match x.shape with
  | [] => Option.none
  | d0 :: _ => x.view2InferLast d0

/-- A concrete 2 × 3 tensor used to exercise `flattenForward`. -/
def mk23Tensor : Tensor Int :=
  { shape := [2, 3]
    data := [1, 2, 3, 4, 5, 6]
    size_eq := by decide
    dims_pos := by decide }

/-! ## Padding, packing, sorting and gathering

Models of the framework primitives the two sequence notebooks exercise,
in the sequence-first (time-major) layout the notebooks use, with
padding value `pad`. -/

/-- The length of the longest sequence in the batch. -/
def maxLen {γ : Type} (seqs : List (List γ)) : Nat :=
  (seqs.map List.length).foldr Nat.max 0

/-- Row `t` of the padded batch tensor: the `t`-th element of every
sequence, with `pad` past a sequence's end. -/
def padRow {γ : Type} (pad : γ) (seqs : List (List γ)) (t : Nat) : List γ :=
  seqs.map (fun s => s.getD t pad)

/-- `pad_sequence(seqs)` (sequence-first): a `maxLen × batch` tensor as a
list of time-step rows. -/
def padSequence {γ : Type} (pad : γ) (seqs : List (List γ)) : List (List γ) :=
  (List.range (maxLen seqs)).map (padRow pad seqs)

/-- Batch size at time step `t`: the number of sequences still running,
i.e. with length greater than `t`. -/
def batchSize (lengths : List Nat) (t : Nat) : Nat :=
  lengths.countP (fun l => decide (t < l))

/-- The per-time-step chunks of `pack_padded_sequence(padded, lengths)`:
for each time step `t` below the maximal length, the first
`batchSize lengths t` entries of row `t`.  The packed data is their
concatenation. -/
def packChunks {γ : Type} (padded : List (List γ)) (lengths : List Nat) :
    List (List γ) :=
  (List.range (lengths.foldr Nat.max 0)).map
    (fun t => (padded.getD t []).take (batchSize lengths t))

/-- A `PackedSequence`: the flat packed data and the per-step batch
sizes. -/
structure PackedSeq (γ : Type) where
  data : List γ
  batch_sizes : List Nat
  deriving DecidableEq, Repr

/-- `pack_padded_sequence(padded, lengths)`. -/
def packPaddedSequence {γ : Type} (padded : List (List γ)) (lengths : List Nat) :
    PackedSeq γ :=
  { data := (packChunks padded lengths).flatten
    batch_sizes := (List.range (lengths.foldr Nat.max 0)).map (batchSize lengths) }

/-- Split flat packed data back into per-step chunks by batch sizes. -/
def splitBySizes {γ : Type} : List Nat → List γ → List (List γ)
  | [], _ => []
  | b :: bs, data => data.take b :: splitBySizes bs (data.drop b)

/-- `pad_packed_sequence(ps)[0]`: rebuild the padded tensor, each chunk
padded on the right up to the first (maximal) batch size. -/
def padPackedSequence {γ : Type} (pad : γ) (ps : PackedSeq γ) : List (List γ) :=
  let n := ps.batch_sizes.headD 0
  (splitBySizes ps.batch_sizes ps.data).map
    (fun c => c ++ List.replicate (n - c.length) pad)

/-- The index tensor of `torch.sort(xs)` (ascending): the positions of
the entries of `xs` in a stable sort by value. -/
def argsortAsc (xs : List Nat) : List Nat :=
  (List.range xs.length).mergeSort (fun i j => decide (xs.getD i 0 ≤ xs.getD j 0))

/-- The stable descending argsort of `xs`: the positions of the entries
in a stable sort by descending value (ties keep their original order).
This is a proof-side canonical form, not a model of
`torch.sort(xs, descending=True)`: torch specifies only
`IsDescSortIndex` below and leaves the order of ties open. -/
def argsortDesc (xs : List Nat) : List Nat :=
  (List.range xs.length).mergeSort (fun i j => decide (xs.getD j 0 ≤ xs.getD i 0))

/-- Everything `torch.sort(lengths, descending=True)` guarantees about
its returned index tensor: it is a permutation of the batch positions
along which the values are non-increasing.  The relative order of
positions with equal values is unspecified. -/
def IsDescSortIndex (lengths : List Nat) (sort_idx : List Nat) : Prop :=
  List.Perm sort_idx (List.range lengths.length) ∧
  List.Pairwise (fun i j => lengths.getD j 0 ≤ lengths.getD i 0) sort_idx

/-- The index list breaks ties between equal values by original
position.  Python's `sorted` guarantees this; `torch.sort` does not. -/
def StableTies (lengths : List Nat) (sort_idx : List Nat) : Prop :=
  List.Pairwise (fun i j => lengths.getD i 0 = lengths.getD j 0 → i ≤ j) sort_idx

/-- `row.gather(index)` along the batch dimension of one time-step row:
entry `j` of the result is entry `idx[j]` of the row. -/
def gatherRow {γ : Type} (d : γ) (r : List γ) (idx : List Nat) : List γ :=
  idx.map (fun i => r.getD i d)

/-- `padded.gather(dim=1, index=idx.repeat(max_length, 1))`: gather every
time-step row by the same index list. -/
def gatherRows {γ : Type} (d : γ) (rows : List (List γ)) (idx : List Nat) :
    List (List γ) :=
  rows.map (fun r => gatherRow d r idx)

/-! ## The two packing pipelines of the batching notebook -/

/-- Option 1 of the batching notebook, with the index tensor returned by
`torch.sort(lengths, descending=True)` as an explicit parameter (torch
determines it only up to `IsDescSortIndex`): pad the unsorted inputs,
reorder the batch dimension by the sort permutation
(`input_orig.gather(dim=1, index=sort_idx.repeat(max_length, 1))`), and
pack with the sorted lengths `sort_idx.map (lengths.getD . 0)`. -/
def option1PackedWith (batch : List (List Int × List Int)) (sort_idx : List Nat) :
    PackedSeq Int :=
  let inputs := batch.map Prod.fst
  let lengths := inputs.map List.length
  let sorted_lengths := sort_idx.map (fun i => lengths.getD i 0)
  packPaddedSequence (gatherRows 0 (padSequence 0 inputs) sort_idx) sorted_lengths

/-- Option 2 of the batching notebook: stably sort the (input, target)
pairs by descending input length
(`sorted(batch, key=lambda b: len(b[0]), reverse=True)`), then pad and
pack the inputs. -/
def option2Packed (batch : List (List Int × List Int)) : PackedSeq Int :=
  let sorted_batch := batch.mergeSort (fun a b => decide (b.1.length ≤ a.1.length))
  let input_presorted := sorted_batch.map Prod.fst
  let presorted_lengths := input_presorted.map List.length
  packPaddedSequence (padSequence 0 input_presorted) presorted_lengths

/-- A batch with two inputs of equal length and different contents: a
tie for the descending-length sort. -/
def tieBatch : List (List Int × List Int) :=
  [([1, 1], [1]), ([2, 2], [2])]

/-- The batching notebook's test batch of (input, target) pairs. -/
def noteBatch : List (List Int × List Int) :=
  [([1, 1, 1], [1, 1, 1, 1]),
   ([2, 2, 2, 2, 2], [2, 2, 2, 2]),
   ([3, 3], [3, 3, 3]),
   ([4, 4, 4], [4, 4, 4]),
   ([5, 5, 5, 5], [5, 5, 5, 5, 5])]

/-! ## The RNN over packed and padded batches

The recurrent cell is abstract: `cell x h` is the next hidden state.  At
each packed time step the first `batch_sizes[t]` hidden states are
updated with the chunk's inputs and the finished sequences keep
theirs. -/

/-- One packed RNN time step. -/
def rnnStepChunk {γ H : Type} (cell : γ → H → H) (hs : List H) (chunk : List γ) :
    List H :=
  List.zipWith cell chunk (hs.take chunk.length) ++ hs.drop chunk.length

/-- Run the RNN over the per-step chunks of a packed sequence (when each
chunk is a full padded row this is the RNN run directly on the padded
tensor without packing). -/
def runPackedRNN {γ H : Type} (cell : γ → H → H) (chunks : List (List γ))
    (hs : List H) : List H :=
  chunks.foldl (rnnStepChunk cell) hs

/-- Final hidden state of the RNN run on one sequence with batch size
one. -/
def rnnFinalHidden {γ H : Type} (cell : γ → H → H) (h0 : H) (seq : List γ) : H :=
  seq.foldl (fun h a => cell a h) h0

/-- The per-sample loop of the hidden-state notebook: for each batch
index `j`, slice column `j` out of the padded tensor, truncate it to the
sequence's true length, and run the RNN on it alone from the shared
initial hidden state. -/
def perSampleHiddens {γ H : Type} (cell : γ → H → H) (pad : γ)
    (seqs : List (List γ)) (h0 : H) : List H :=
  (List.range seqs.length).map (fun j =>
    rnnFinalHidden cell h0
      (((padSequence pad seqs).map (fun r => r.getD j pad)).take
        ((seqs.getD j []).length)))

/-- The test batch of the hidden-state notebook, already sorted by
descending length. -/
def testInputsRNN : List (List Int) :=
  [[1, 1, 1, 1, 1], [2, 2, 2, 2], [3, 3, 3], [4, 4], [5, 5]]

/-- A concrete recurrent cell (a stand-in choice of RNN weights): the
next hidden state is an affine function of input and hidden state, so a
padding step changes the hidden state. -/
def affineCell (a h : Int) : Int :=
  2 * h + a + 1

/-! ## Theorems: the ConvNet builder -/

theorem list_eq_of_length_two (xs : List Int) (h : xs.length = 2) :
    ∃ a b, xs = [a, b] := by
  rcases xs with _ | ⟨a, xs⟩
  · simp at h
  rcases xs with _ | ⟨b, xs⟩
  · simp at h
  rcases xs with _ | ⟨c, xs⟩
  · exact ⟨a, b, rfl⟩
  · simp [List.length] at h

theorem list_eq_of_length_three (xs : List Int) (h : xs.length = 3) :
    ∃ a b c, xs = [a, b, c] := by
  rcases xs with _ | ⟨a, xs⟩
  · simp at h
  rcases xs with _ | ⟨b, xs⟩
  · simp at h
  rcases xs with _ | ⟨c, xs⟩
  · simp at h
  rcases xs with _ | ⟨d, xs⟩
  · exact ⟨a, b, c, rfl⟩
  · simp [List.length] at h

theorem list_eq_of_length_five (xs : List Int) (h : xs.length = 5) :
    ∃ a b c d e, xs = [a, b, c, d, e] := by
  rcases xs with _ | ⟨a, xs⟩
  · simp at h
  rcases xs with _ | ⟨b, xs⟩
  · simp at h
  rcases xs with _ | ⟨c, xs⟩
  · simp at h
  rcases xs with _ | ⟨d, xs⟩
  · simp at h
  rcases xs with _ | ⟨e, xs⟩
  · simp at h
  rcases xs with _ | ⟨f, xs⟩
  · exact ⟨a, b, c, d, e, rfl⟩
  · simp [List.length] at h

/-- A handled key whose parameters have the branch's arity builds the
layer described by the entry. -/
theorem buildLayer_ok (k : String) (p : Option (List Int))
    (hk : stripString k ∈ handledTypes)
    (hp : paramsArityOK (stripString k) p = true) :
    ∃ l, buildLayer k p = Except.ok l ∧ EntryBuilds (k, p) l := by
  simp only [handledTypes, List.mem_cons, List.not_mem_nil, or_false] at hk
  rcases hk with h | h | h | h | h | h | h | h
  · rw [h] at hp
    simp only [paramsArityOK, if_pos rfl] at hp
    rcases p with _ | xs
    · simp at hp
    · have hx : xs.length = 5 := by
        simpa using hp
      obtain ⟨a, b, c, d, e, rfl⟩ := list_eq_of_length_five xs hx
      exact ⟨Layer.conv2d a b c d e, by simp [buildLayer, h, unpack5],
        EntryBuilds.conv2d k a b c d e h⟩
  · rw [h] at hp
    simp only [paramsArityOK] at hp
    rcases p with _ | xs
    · simp at hp
    · have hx : xs.length = 3 := by
        simpa using hp
      obtain ⟨a, b, c, rfl⟩ := list_eq_of_length_three xs hx
      exact ⟨Layer.avgPool2d a b c, by simp [buildLayer, h, unpack3],
        EntryBuilds.avgPool2d k a b c h⟩
  · rw [h] at hp
    simp only [paramsArityOK] at hp
    rcases p with _ | xs
    · simp at hp
    · have hx : xs.length = 3 := by
        simpa using hp
      obtain ⟨a, b, c, rfl⟩ := list_eq_of_length_three xs hx
      exact ⟨Layer.maxPool2d a b c, by simp [buildLayer, h, unpack3],
        EntryBuilds.maxPool2d k a b c h⟩
  · exact ⟨Layer.flatten, by simp [buildLayer, h], EntryBuilds.flatten k p h⟩
  · rw [h] at hp
    simp only [paramsArityOK] at hp
    rcases p with _ | xs
    · simp at hp
    · have hx : xs.length = 2 := by
        simpa using hp
      obtain ⟨a, b, rfl⟩ := list_eq_of_length_two xs hx
      exact ⟨Layer.linear a b, by simp [buildLayer, h, unpack2],
        EntryBuilds.linear k a b h⟩
  · exact ⟨Layer.relu, by simp [buildLayer, h], EntryBuilds.relu k p h⟩
  · exact ⟨Layer.sigmoid, by simp [buildLayer, h], EntryBuilds.sigmoid k p h⟩
  · exact ⟨Layer.tanh, by simp [buildLayer, h], EntryBuilds.tanh k p h⟩

/-- An unhandled stripped key raises the unsupported-layer ValueError. -/
theorem buildLayer_unhandled (k : String) (p : Option (List Int))
    (hk : stripString k ∉ handledTypes) :
    buildLayer k p =
      Except.error (PyError.valueError ("Unsupported layer type: " ++ stripString k)) := by
  simp only [handledTypes, List.mem_cons, List.not_mem_nil, or_false, not_or] at hk
  obtain ⟨h1, h2, h3, h4, h5, h6, h7, h8⟩ := hk
  simp [buildLayer, h1, h2, h3, h4, h5, h6, h7, h8]

/-- C1: for every architecture dictionary whose every key, after stripping
an underscore-plus-alphanumeric suffix, is one of the eight handled
layer-type strings with a parameter tuple of the matching arity,
`ConvNet.__init__` builds a layers list with exactly one layer per entry,
in insertion order, each layer of the type named by the stripped key and
constructed with exactly the parameters of that entry's tuple. -/
theorem convNetInit_builds (arch : List (String × Option (List Int)))
    (h : ∀ e ∈ arch,
      stripString e.1 ∈ handledTypes ∧ paramsArityOK (stripString e.1) e.2 = true) :
    ∃ L, convNetInit arch = Except.ok L ∧ List.Forall₂ EntryBuilds arch L := by
  induction arch with
  | nil => exact ⟨[], rfl, List.Forall₂.nil⟩
  | cons e rest ih =>
    obtain ⟨k, p⟩ := e
    have h1 := h (k, p) (List.mem_cons_self _ _)
    obtain ⟨l, hbl, hb⟩ := buildLayer_ok k p h1.1 h1.2
    obtain ⟨L, hL, hF⟩ := ih (fun e' he' => h e' (List.mem_cons_of_mem _ he'))
    exact ⟨l :: L, by simp [convNetInit, hbl, hL], List.Forall₂.cons hb hF⟩

/-- Witness for C1: the LeNet-5 architecture dictionary of the notebook
satisfies the hypothesis and so builds a layers list. -/
theorem convNetInit_builds_witness :
    (∀ e ∈ lenet5Arch,
      stripString e.1 ∈ handledTypes ∧ paramsArityOK (stripString e.1) e.2 = true) ∧
      ∃ L, convNetInit lenet5Arch = Except.ok L ∧ List.Forall₂ EntryBuilds lenet5Arch L :=
  ⟨by decide, convNetInit_builds lenet5Arch (by decide)⟩

/-- C2: `ConvNet.forward` equals the left-to-right sequential composition
of the constructed layers: the output of each layer is fed as the input
of the next, in the order the layers were appended. -/
theorem forward_eq_layerComposition {T : Type} (app : Layer → T → T)
    (layers : List Layer) (x : T) :
    forwardLoop app layers x = layerComposition app layers x := by
  induction layers generalizing x with
  | nil => rfl
  | cons l ls ih =>
    simp only [forwardLoop, List.foldl_cons, layerComposition, List.foldr_cons,
      Function.comp_apply]
    exact ih (app l x)

/-- C10: a ConvNet built from the empty architecture dictionary has an
empty layers list, and its forward pass is the identity. -/
theorem convNet_empty_identity :
    convNetInit [] = Except.ok [] ∧
      ∀ (T : Type) (app : Layer → T → T) (x : T), forwardLoop app [] x = x :=
  ⟨rfl, fun _ _ _ => rfl⟩

/-- Counterexample to C3 as stated: the entry `("Conv2d", (1, 2))` has a
handled stripped key, yet the constructor raises ValueError — Python
tuple unpacking of a two-tuple into five targets is a ValueError.  So
"raises ValueError iff some stripped key is unhandled" is false. -/
theorem convNetInit_valueError_iff_cex :
    ¬ ((∃ msg, convNetInit [("Conv2d", some [1, 2])] =
          Except.error (PyError.valueError msg)) ↔
        ∃ e ∈ [(("Conv2d" : String), (some [1, 2] : Option (List Int)))],
          stripString e.1 ∉ handledTypes) := by
  intro hiff
  have h1 : ∃ msg, convNetInit [("Conv2d", some [1, 2])] =
      Except.error (PyError.valueError msg) :=
    ⟨"not enough values to unpack", rfl⟩
  exact absurd (hiff.mp h1) (by decide)

/-- C3 (amended): provided every entry whose stripped key is handled has
parameters of the branch's arity, `ConvNet.__init__` raises ValueError
iff some key's stripped type is not among the eight handled strings; in
particular a key stripping to "Sigmoid" raises ValueError even though
the docstring lists Sigmoid, because the code matches only "Sigmod". -/
theorem convNetInit_valueError_iff (arch : List (String × Option (List Int)))
    (h : ∀ e ∈ arch,
      stripString e.1 ∈ handledTypes → paramsArityOK (stripString e.1) e.2 = true) :
    ((∃ msg, convNetInit arch = Except.error (PyError.valueError msg)) ↔
        ∃ e ∈ arch, stripString e.1 ∉ handledTypes) ∧
      convNetInit [("Sigmoid", Option.none)] =
        Except.error (PyError.valueError "Unsupported layer type: Sigmoid") := by
  refine ⟨?_, rfl⟩
  induction arch with
  | nil => simp [convNetInit]
  | cons e rest ih =>
    obtain ⟨k, p⟩ := e
    have ihr := ih (fun e' he' => h e' (List.mem_cons_of_mem _ he'))
    by_cases hk : stripString k ∈ handledTypes
    · obtain ⟨l, hbl, _⟩ :=
        buildLayer_ok k p hk (h (k, p) (List.mem_cons_self _ _) hk)
      constructor
      · rintro ⟨msg, hmsg⟩
        simp only [convNetInit, hbl] at hmsg
        cases hrest : convNetInit rest with
        | error e' =>
          rw [hrest] at hmsg
          obtain ⟨e'', he'', hbad⟩ := ihr.mp ⟨msg, by rw [hrest]; exact hmsg ▸ rfl⟩
          exact ⟨e'', List.mem_cons_of_mem _ he'', hbad⟩
        | ok ls =>
          rw [hrest] at hmsg
          exact absurd hmsg (by simp)
      · rintro ⟨e', he', hbad⟩
        rcases List.mem_cons.mp he' with rfl | hmem
        · exact absurd hk hbad
        · obtain ⟨msg, hrest⟩ := ihr.mpr ⟨e', hmem, hbad⟩
          exact ⟨msg, by simp [convNetInit, hbl, hrest]⟩
    · have hbl := buildLayer_unhandled k p hk
      refine iff_of_true ?_ ⟨(k, p), List.mem_cons_self _ _, hk⟩
      exact ⟨"Unsupported layer type: " ++ stripString k, by simp [convNetInit, hbl]⟩

/-- Witness for the amended C3: a dictionary with one handled entry and a
"Sigmoid" entry satisfies the arity hypothesis and raises ValueError. -/
theorem convNetInit_valueError_iff_witness :
    (∀ e ∈ [(("Tanh_1" : String), (Option.none : Option (List Int))),
        ("Sigmoid", Option.none)],
      stripString e.1 ∈ handledTypes → paramsArityOK (stripString e.1) e.2 = true) ∧
      (((∃ msg, convNetInit [(("Tanh_1" : String), (Option.none : Option (List Int))),
            ("Sigmoid", Option.none)] = Except.error (PyError.valueError msg)) ↔
          ∃ e ∈ [(("Tanh_1" : String), (Option.none : Option (List Int))),
            ("Sigmoid", Option.none)], stripString e.1 ∉ handledTypes) ∧
        convNetInit [("Sigmoid", Option.none)] =
          Except.error (PyError.valueError "Unsupported layer type: Sigmoid")) :=
  ⟨by decide, convNetInit_valueError_iff _ (by decide)⟩

/-! ## Theorems: evaluate -/

/-- One batch step adds the batch size to `total` and the number of
samples whose argmax prediction equals the label to `correct`. -/
theorem evalBatchStep_spec {I : Type} (model : I → List Int) (acc : Nat × Nat)
    (data : List (I × Nat)) :
    evalBatchStep model acc data =
      (acc.1 + data.length,
       acc.2 + data.countP (fun s => decide (argmaxIdx (model s.1) = s.2))) := by
  simp [evalBatchStep, List.map_map, List.zipWith_map, List.zipWith_same,
    List.length_map, List.count, List.countP_map, Function.comp_def]

/-- The evaluate loop accumulates the flattened sample count and correct
count, and returns the model parameters unchanged. -/
theorem evaluateLoop_spec {P I : Type} (forwardOf : P → I → List Int) (p : P)
    (td : List (List (I × Nat))) (t c : Nat) :
    td.foldl (fun acc data => (evalBatchStep (forwardOf acc.2) acc.1 data, acc.2))
        ((t, c), p) =
      ((t + td.flatten.length,
        c + td.flatten.countP (fun s => decide (argmaxIdx (forwardOf p s.1) = s.2))), p) := by
  induction td generalizing t c with
  | nil => simp
  | cons d td ih =>
    rw [List.foldl_cons]
    have hstep :
        (evalBatchStep (forwardOf ((t, c), p).2) ((t, c), p).1 d, ((t, c), p).2) =
          ((t + d.length,
            c + d.countP (fun s => decide (argmaxIdx (forwardOf p s.1) = s.2))), p) := by
      simp only [evalBatchStep_spec]
    rw [hstep, ih]
    simp [List.countP_append, Nat.add_assoc]

/-- C8: for every model and test dataset with at least one sample,
`evaluate` reports an accuracy of 100 times the number of samples whose
argmax prediction equals the true label, divided by the total sample
count over all batches, and returns the model parameters unchanged. -/
theorem evaluate_accuracy {P I : Type} (forwardOf : P → I → List Int) (p : P)
    (td : List (List (I × Nat))) (h : 0 < td.flatten.length) :
    evaluate forwardOf p td =
      (Except.ok (100 *
          ((td.flatten.countP (fun s => decide (argmaxIdx (forwardOf p s.1) = s.2)) : Nat) : Rat) /
          ((td.flatten.length : Nat) : Rat)), p) := by
  unfold evaluate evaluateLoop
  rw [evaluateLoop_spec]
  simp only [Nat.zero_add]
  rw [if_neg (by omega)]

/-- Witness for C8: a two-batch dataset with three samples. -/
theorem evaluate_accuracy_witness :
    (0 < ([[((1 : Nat), 1), (2, 0)], [(0, 0)]].flatten.length)) ∧
      evaluate (fun (_ : Unit) (i : Nat) => [0, (i : Int)]) () [[(1, 1), (2, 0)], [(0, 0)]] =
        (Except.ok (100 *
            (([[((1 : Nat), 1), (2, 0)], [(0, 0)]].flatten.countP
                (fun s => decide (argmaxIdx ((fun (_ : Unit) (i : Nat) => [0, (i : Int)]) () s.1) = s.2)) : Nat) : Rat) /
            (([[((1 : Nat), 1), (2, 0)], [(0, 0)]].flatten.length : Nat) : Rat)), ()) :=
  ⟨by decide, evaluate_accuracy (fun (_ : Unit) (i : Nat) => [0, (i : Int)]) ()
    [[(1, 1), (2, 0)], [(0, 0)]] (by decide)⟩

/-! ## Theorems: the Flatten module -/

/-- C9: for every tensor with at least one dimension, `Flatten.forward`
returns a tensor of shape `(x.size(0), n)` with `n` the product of the
remaining dimensions, containing the same elements in the same order. -/
theorem flattenForward_spec {γ : Type} (x : Tensor γ) (d0 : Nat) (rest : List Nat)
    (h : x.shape = d0 :: rest) :
    ∃ y, flattenForward x = some y ∧ y.shape = [d0, rest.prod] ∧ y.data = x.data := by
  have hd0 : 0 < d0 := x.dims_pos d0 (h ▸ List.mem_cons_self _ _)
  have hdiv : d0 ∣ x.data.length := ⟨rest.prod, by rw [x.size_eq, h, List.prod_cons]⟩
  have hq : x.data.length / d0 = rest.prod := by
    rw [x.size_eq, h, List.prod_cons, Nat.mul_div_cancel_left _ hd0]
  have hpos : 0 < x.data.length / d0 := by
    rw [hq]
    exact List.prod_pos (fun a ha => x.dims_pos a (h ▸ List.mem_cons_of_mem _ ha))
  unfold flattenForward
  rw [h]
  show ∃ y, x.view2InferLast d0 = some y ∧ _
  unfold Tensor.view2InferLast
  rw [dif_pos ⟨hd0, hdiv, hpos⟩]
  exact ⟨_, rfl, by simp [hq], rfl⟩

/-- Witness for C9: flattening the concrete 2 × 3 tensor. -/
theorem flattenForward_spec_witness :
    mk23Tensor.shape = 2 :: [3] ∧
      ∃ y, flattenForward mk23Tensor = some y ∧
        y.shape = [2, ([3] : List Nat).prod] ∧ y.data = mk23Tensor.data :=
  ⟨rfl, flattenForward_spec mk23Tensor 2 [3] rfl⟩

/-! ## Theorems: sorting, gathering and restoring the batch -/

theorem listGetD_eq {γ : Type} (l : List γ) (d : γ) {i : Nat} (h : i < l.length) :
    l.getD i d = l[i] := by
  simp [List.getD_eq_getElem?_getD, List.getElem?_eq_getElem h]

/-- Reading a list back off `range` by positions gives the list. -/
theorem map_getD_range {γ : Type} (xs : List γ) (d : γ) :
    (List.range xs.length).map (fun i => xs.getD i d) = xs := by
  induction xs with
  | nil => rfl
  | cons x xs ih =>
    rw [List.length_cons, List.range_succ_eq_map, List.map_cons, List.map_map]
    simp only [List.getD_cons_zero, Function.comp_def, Nat.succ_eq_add_one,
      List.getD_cons_succ]
    rw [ih]

/-- The values of a list read off along its ascending argsort are the
sorted list. -/
theorem argsortAsc_values (xs : List Nat) :
    (argsortAsc xs).map (fun i => xs.getD i 0) =
      xs.mergeSort (fun a b => decide (a ≤ b)) := by
  unfold argsortAsc
  rw [@List.map_mergeSort Nat Nat (fun i j => decide (xs.getD i 0 ≤ xs.getD j 0))
    (fun a b => decide (a ≤ b)) (fun i => xs.getD i 0) (List.range xs.length)
    (fun _ _ _ _ => rfl), map_getD_range]

/-- Sorting a permutation of `range n` by value gives back `range n`. -/
theorem mergeSort_perm_range (xs : List Nat) (n : Nat)
    (hperm : List.Perm xs (List.range n)) :
    xs.mergeSort (fun a b => decide (a ≤ b)) = List.range n := by
  have hs1 : List.Sorted (fun a b => a ≤ b) (xs.mergeSort (fun a b => decide (a ≤ b))) := by
    have h := List.sorted_mergeSort
      (fun a b c hab hbc => by
        have h1 : a ≤ b := of_decide_eq_true hab
        have h2 : b ≤ c := of_decide_eq_true hbc
        exact decide_eq_true (Nat.le_trans h1 h2))
      (fun a b => by
        rcases Nat.le_total a b with h | h <;> simp [h]) xs
    exact h.imp (fun hab => of_decide_eq_true hab)
  have hs2 : List.Sorted (fun a b => a ≤ b) (List.range n) := List.pairwise_le_range n
  exact List.eq_of_perm_of_sorted ((List.mergeSort_perm xs _).trans hperm) hs1 hs2

/-- The argsort of a permutation of `range n` is its inverse: composing
the permutation with its argsort gives the identity on positions. -/
theorem argsortAsc_inverse (xs : List Nat) (n : Nat)
    (hperm : List.Perm xs (List.range n)) {j : Nat} (hj : j < n) :
    xs.getD ((argsortAsc xs).getD j 0) 0 = j := by
  have hkey : (argsortAsc xs).map (fun i => xs.getD i 0) = List.range n := by
    rw [argsortAsc_values, mergeSort_perm_range xs n hperm]
  have holen : (argsortAsc xs).length = n := by
    unfold argsortAsc
    rw [List.length_mergeSort, List.length_range, hperm.length_eq, List.length_range]
  have hmap : ((argsortAsc xs).map (fun i => xs.getD i 0)).getD j 0 =
      (List.range n).getD j 0 := by
    rw [hkey]
  rw [listGetD_eq _ 0 (by simpa [holen] using hj),
    listGetD_eq _ 0 (by simpa [List.length_range] using hj),
    List.getElem_map, List.getElem_range] at hmap
  rw [listGetD_eq (argsortAsc xs) 0 (show j < (argsortAsc xs).length by
    rw [holen]
    exact hj)]
  exact hmap

/-- Every entry of the argsort of a permutation of `range n` is below
`n`. -/
theorem argsortAsc_entry_lt (xs : List Nat) (n : Nat)
    (hperm : List.Perm xs (List.range n)) {j : Nat}
    (hj : j < (argsortAsc xs).length) :
    (argsortAsc xs).getD j 0 < n := by
  have hlen : xs.length = n := by
    rw [hperm.length_eq, List.length_range]
  have hmem : ∀ x ∈ argsortAsc xs, x < n := by
    intro x hx
    unfold argsortAsc at hx
    rw [List.mem_mergeSort, List.mem_range, hlen] at hx
    exact hx
  apply hmem
  rw [listGetD_eq _ 0 hj]
  exact List.getElem_mem hj

/-- Entry `j` of a gathered row is entry `idx[j]` of the row. -/
theorem gatherRow_getD {γ : Type} (d : γ) (r : List γ) (idx : List Nat) {j : Nat}
    (hj : j < idx.length) :
    (gatherRow d r idx).getD j d = r.getD (idx.getD j 0) d := by
  unfold gatherRow
  rw [listGetD_eq _ d (by simpa using hj), List.getElem_map, listGetD_eq idx 0 hj]

/-- Gathering one row by a sorting permutation and then by its argsort
restores the row. -/
theorem gatherRow_inverse (n : Nat) (sort_idx : List Nat)
    (hperm : List.Perm sort_idx (List.range n)) (r : List Int) (hr : r.length = n) :
    gatherRow 0 (gatherRow 0 r sort_idx) (argsortAsc sort_idx) = r := by
  have hslen : sort_idx.length = n := by
    rw [hperm.length_eq, List.length_range]
  have holen : (argsortAsc sort_idx).length = n := by
    unfold argsortAsc
    rw [List.length_mergeSort, List.length_range, hslen]
  apply List.ext_getElem
  · simp [gatherRow, holen, hr]
  intro j h1 h2
  have hjn : j < n := by
    simpa [gatherRow, holen] using h1
  rw [← listGetD_eq _ 0 h1, ← listGetD_eq _ 0 h2]
  rw [gatherRow_getD 0 _ _ (by rw [holen]; exact hjn)]
  rw [gatherRow_getD 0 _ _ (by
    rw [hslen]
    exact argsortAsc_entry_lt sort_idx n hperm (by rw [holen]; exact hjn))]
  rw [argsortAsc_inverse sort_idx n hperm hjn]

/-- C5: gathering the batch dimension of a padded tensor by a sorting
permutation (repeated across time steps) and then by its argsort restores
the tensor: the argsort of the sorting permutation is its inverse. -/
theorem gather_argsort_restores (n : Nat) (sort_idx : List Nat)
    (hperm : List.Perm sort_idx (List.range n)) (rows : List (List Int))
    (hrows : ∀ r ∈ rows, r.length = n) :
    gatherRows 0 (gatherRows 0 rows sort_idx) (argsortAsc sort_idx) = rows := by
  unfold gatherRows
  rw [List.map_map]
  exact (List.map_congr_left
    (fun r hr => gatherRow_inverse n sort_idx hperm r (hrows r hr))).trans
    (List.map_id rows)

/-- Witness for C5: the batching notebook's padded input and its
descending-length sort permutation `[1, 4, 0, 3, 2]`. -/
theorem gather_argsort_restores_witness :
    (List.Perm [1, 4, 0, 3, 2] (List.range 5) ∧
      (∀ r ∈ ([[1, 2, 3, 4, 5], [1, 2, 3, 4, 5], [1, 2, 0, 4, 5],
        [0, 2, 0, 0, 5], [0, 2, 0, 0, 0]] : List (List Int)), r.length = 5)) ∧
      gatherRows 0 (gatherRows 0 ([[1, 2, 3, 4, 5], [1, 2, 3, 4, 5], [1, 2, 0, 4, 5],
          [0, 2, 0, 0, 5], [0, 2, 0, 0, 0]] : List (List Int)) [1, 4, 0, 3, 2])
        (argsortAsc [1, 4, 0, 3, 2]) =
        ([[1, 2, 3, 4, 5], [1, 2, 3, 4, 5], [1, 2, 0, 4, 5],
          [0, 2, 0, 0, 5], [0, 2, 0, 0, 0]] : List (List Int)) :=
  ⟨⟨by decide, by decide⟩,
    gather_argsort_restores 5 [1, 4, 0, 3, 2] (by decide) _ (by decide)⟩

/-! ## Theorems: the two packing pipelines agree -/

theorem getD_map_length (inputs : List (List Int)) {i : Nat} (hi : i < inputs.length) :
    (inputs.map List.length).getD i 0 = (inputs.getD i []).length := by
  rw [listGetD_eq _ 0 (by simpa using hi), List.getElem_map, listGetD_eq _ [] hi]

/-- The longest length in a batch is invariant under permuting the
batch. -/
theorem maxLen_perm {γ : Type} {s1 s2 : List (List γ)} (h : List.Perm s1 s2) :
    maxLen s1 = maxLen s2 := by
  unfold maxLen
  exact @List.Perm.foldr_eq Nat Nat Nat.max _ _
    ⟨fun a b c => by
      show max a (max b c) = max b (max a c)
      rw [← Nat.max_assoc, Nat.max_comm a b, Nat.max_assoc]⟩
    (h.map List.length) 0

/-- Gathering the batch by the descending-length argsort reorders the
sequences into their stable descending-length sort. -/
theorem sortedInputs_eq_gather (inputs : List (List Int)) :
    (argsortDesc (inputs.map List.length)).map (fun i => inputs.getD i []) =
      inputs.mergeSort (fun s t => decide (t.length ≤ s.length)) := by
  unfold argsortDesc
  rw [List.length_map]
  rw [@List.map_mergeSort Nat (List Int)
    (fun i j => decide ((inputs.map List.length).getD j 0 ≤ (inputs.map List.length).getD i 0))
    (fun s t => decide (t.length ≤ s.length))
    (fun i => inputs.getD i [])
    (List.range inputs.length)
    (fun a ha b hb => by
      show decide ((inputs.map List.length).getD b 0 ≤ (inputs.map List.length).getD a 0) =
        decide ((inputs.getD b []).length ≤ (inputs.getD a []).length)
      rw [getD_map_length inputs (List.mem_range.mp ha),
        getD_map_length inputs (List.mem_range.mp hb)]), map_getD_range]

/-- The sorted-lengths tensor returned by `torch.sort(descending=True)`
is the descending sort of the lengths. -/
theorem sortedLengths_eq (lengths : List Nat) :
    (argsortDesc lengths).map (fun i => lengths.getD i 0) =
      lengths.mergeSort (fun a b => decide (b ≤ a)) := by
  unfold argsortDesc
  rw [@List.map_mergeSort Nat Nat
    (fun i j => decide (lengths.getD j 0 ≤ lengths.getD i 0))
    (fun a b => decide (b ≤ a)) (fun i => lengths.getD i 0) (List.range lengths.length)
    (fun _ _ _ _ => rfl), map_getD_range]

/-- The lengths of the presorted inputs are the descending sort of the
lengths. -/
theorem presortedLengths_eq (inputs : List (List Int)) :
    (inputs.mergeSort (fun s t => decide (t.length ≤ s.length))).map List.length =
      (inputs.map List.length).mergeSort (fun a b => decide (b ≤ a)) :=
  @List.map_mergeSort (List Int) Nat (fun s t => decide (t.length ≤ s.length))
    (fun a b => decide (b ≤ a)) List.length inputs (fun _ _ _ _ => rfl)

/-- Taking the inputs of the stably sorted pair batch is stably sorting
the inputs. -/
theorem sortedBatch_fst (batch : List (List Int × List Int)) :
    (batch.mergeSort (fun a b => decide (b.1.length ≤ a.1.length))).map Prod.fst =
      (batch.map Prod.fst).mergeSort (fun s t => decide (t.length ≤ s.length)) :=
  @List.map_mergeSort (List Int × List Int) (List Int)
    (fun a b => decide (b.1.length ≤ a.1.length))
    (fun s t => decide (t.length ≤ s.length)) Prod.fst batch (fun _ _ _ _ => rfl)

/-- Gathering one padded row by the descending-length argsort equals the
same row of the presorted padded tensor. -/
theorem gatherRow_padRow (inputs : List (List Int)) (t : Nat) :
    gatherRow 0 (padRow 0 inputs t) (argsortDesc (inputs.map List.length)) =
      padRow 0 (inputs.mergeSort (fun s u => decide (u.length ≤ s.length))) t := by
  unfold gatherRow padRow
  rw [← sortedInputs_eq_gather, List.map_map]
  apply List.map_congr_left
  intro i hi
  have hi' : i < inputs.length := by
    have hmem : i ∈ List.range (inputs.map List.length).length := by
      unfold argsortDesc at hi
      exact List.mem_mergeSort.mp hi
    simpa using hmem
  simp only [Function.comp_def]
  rw [listGetD_eq _ 0 (by simpa using hi'), List.getElem_map, listGetD_eq _ [] hi']

/-- The gathered padded tensor equals the padded presorted tensor. -/
theorem gather_padded_eq (inputs : List (List Int)) :
    gatherRows 0 (padSequence 0 inputs) (argsortDesc (inputs.map List.length)) =
      padSequence 0 (inputs.mergeSort (fun s t => decide (t.length ≤ s.length))) := by
  unfold gatherRows padSequence
  rw [List.map_map]
  rw [maxLen_perm (List.mergeSort_perm inputs (fun s t => decide (t.length ≤ s.length)))]
  apply List.map_congr_left
  intro t _
  simp only [Function.comp_def]
  exact gatherRow_padRow inputs t

/-- In a duplicate-free list two elements cannot each precede the
other. -/
theorem eq_of_pair_sublists {x y : Nat} :
    ∀ {l : List Nat}, l.Nodup → List.Sublist [x, y] l → List.Sublist [y, x] l →
      x = y := by
  intro l
  induction l with
  | nil =>
    intro _ h1 _
    exact absurd h1 (by simp)
  | cons a l ih =>
    intro hnd h1 h2
    have hnotmem : a ∉ l := (List.nodup_cons.mp hnd).1
    cases h1 with
    | cons _ h1 =>
      cases h2 with
      | cons _ h2 => exact ih (List.nodup_cons.mp hnd).2 h1 h2
      | cons₂ _ h2 => exact absurd (h1.subset (by simp)) hnotmem
    | cons₂ _ h1 =>
      cases h2 with
      | cons _ h2 => exact absurd (h2.subset (by simp)) hnotmem
      | cons₂ _ h2 => rfl

/-- An increasing pair below `n` is a sublist of `range n`. -/
theorem pair_sublist_range {y x n : Nat} (h1 : y < x) (h2 : x < n) :
    List.Sublist [y, x] (List.range n) := by
  have hsplit := List.range_add x (n - x)
  rw [show x + (n - x) = n from by omega] at hsplit
  rw [hsplit]
  have hy : List.Sublist [y] (List.range x) :=
    List.singleton_sublist.mpr (List.mem_range.mpr h1)
  have hx0 : List.Sublist [x] ((List.range (n - x)).map (x + ·)) := by
    rw [List.singleton_sublist]
    exact List.mem_map.mpr ⟨0, List.mem_range.mpr (by omega), by simp⟩
  exact hy.append hx0

theorem argsortDesc_perm (xs : List Nat) :
    List.Perm (argsortDesc xs) (List.range xs.length) := by
  unfold argsortDesc
  exact List.mergeSort_perm _ _

/-- The stable descending argsort sorts the values non-increasingly. -/
theorem argsortDesc_desc (xs : List Nat) :
    List.Pairwise (fun i j => xs.getD j 0 ≤ xs.getD i 0) (argsortDesc xs) := by
  have h := List.sorted_mergeSort
    (fun i j k hij hjk => by
      have g1 : xs.getD j 0 ≤ xs.getD i 0 := of_decide_eq_true hij
      have g2 : xs.getD k 0 ≤ xs.getD j 0 := of_decide_eq_true hjk
      exact decide_eq_true (Nat.le_trans g2 g1))
    (fun i j => by
      rcases Nat.le_total (xs.getD j 0) (xs.getD i 0) with h | h
      · rw [decide_eq_true h, Bool.true_or]
      · rw [decide_eq_true h, Bool.or_true])
    (List.range xs.length)
  exact h.imp (fun hab => of_decide_eq_true hab)

/-- The stable descending argsort breaks ties by original position. -/
theorem argsortDesc_stableTies (xs : List Nat) :
    StableTies xs (argsortDesc xs) := by
  unfold StableTies
  rw [List.pairwise_iff_forall_sublist]
  intro a b hsub htie
  by_contra hab
  push_neg at hab
  have hperm := argsortDesc_perm xs
  have ha : a < xs.length :=
    List.mem_range.mp (hperm.subset (hsub.subset (by simp)))
  have hba : List.Sublist [b, a] (argsortDesc xs) := by
    unfold argsortDesc
    exact List.pair_sublist_mergeSort
      (fun i j k hij hjk => by
        have g1 : xs.getD j 0 ≤ xs.getD i 0 := of_decide_eq_true hij
        have g2 : xs.getD k 0 ≤ xs.getD j 0 := of_decide_eq_true hjk
        exact decide_eq_true (Nat.le_trans g2 g1))
      (fun i j => by
        rcases Nat.le_total (xs.getD j 0) (xs.getD i 0) with h | h
        · rw [decide_eq_true h, Bool.true_or]
        · rw [decide_eq_true h, Bool.or_true])
      (decide_eq_true (Nat.le_of_eq htie))
      (pair_sublist_range hab ha)
  have hnd : (argsortDesc xs).Nodup := hperm.nodup_iff.mpr (List.nodup_range _)
  exact absurd (eq_of_pair_sublists hnd hsub hba) (by omega)

/-- A valid descending sort index with stable tie-breaking is unique: it
is the stable descending argsort. -/
theorem descSortIndex_unique (lengths : List Nat) (sort_idx : List Nat)
    (hvalid : IsDescSortIndex lengths sort_idx)
    (hstable : StableTies lengths sort_idx) :
    sort_idx = argsortDesc lengths := by
  have hs1 : List.Pairwise (fun i j =>
      (lengths.getD j 0 ≤ lengths.getD i 0) ∧
        (lengths.getD i 0 = lengths.getD j 0 → i ≤ j)) sort_idx :=
    hvalid.2.and hstable
  have hs2 : List.Pairwise (fun i j =>
      (lengths.getD j 0 ≤ lengths.getD i 0) ∧
        (lengths.getD i 0 = lengths.getD j 0 → i ≤ j)) (argsortDesc lengths) :=
    (argsortDesc_desc lengths).and (argsortDesc_stableTies lengths)
  exact List.Perm.eq_of_sorted
    (fun a b _ _ hab hba => by
      have heq : lengths.getD a 0 = lengths.getD b 0 :=
        Nat.le_antisymm hba.1 hab.1
      exact Nat.le_antisymm (hab.2 heq) (hba.2 heq.symm))
    hs1 hs2 (hvalid.1.trans (argsortDesc_perm lengths).symm)

/-- Counterexample to C6 as stated: `torch.sort(descending=True)` fixes
its index tensor only up to `IsDescSortIndex` — the order of
equal-length positions is unspecified — while Python's `sorted` is
stable.  On `tieBatch` (two inputs of length 2 with different contents)
the valid index order `[1, 0]` makes the gathered-and-packed input
differ from the presorted-and-packed one, so the pipelines do not agree
for every batch and every sort the program may observe. -/
theorem packed_pipelines_cex :
    ¬ (∀ (batch : List (List Int × List Int)) (sort_idx : List Nat),
        IsDescSortIndex ((batch.map Prod.fst).map List.length) sort_idx →
        option2Packed batch = option1PackedWith batch sort_idx) := by
  intro h
  have hc := h tieBatch [1, 0] ⟨by decide, by decide⟩
  have hsorted : tieBatch.mergeSort (fun a b => decide (b.1.length ≤ a.1.length)) =
      tieBatch :=
    List.mergeSort_of_sorted (by decide)
  simp only [option2Packed, hsorted] at hc
  exact absurd hc (by decide)

/-- C6 (amended): sorting the (input, target) pairs by descending input
length and then padding and packing the inputs yields the same packed
sequence (same data and batch sizes, and the same tensor after
unpacking) as padding the unsorted inputs, reordering the padded tensor
by the descending-length sort permutation and packing — provided the
sort permutation breaks ties between equal lengths by original position
(Python's `sorted` guarantees this order; `torch.sort` leaves it
unspecified, though the notebook's run produced it). -/
theorem packed_pipelines_agree_stable (batch : List (List Int × List Int))
    (sort_idx : List Nat)
    (hvalid : IsDescSortIndex ((batch.map Prod.fst).map List.length) sort_idx)
    (hstable : StableTies ((batch.map Prod.fst).map List.length) sort_idx) :
    option2Packed batch = option1PackedWith batch sort_idx ∧
      padPackedSequence 0 (option2Packed batch) =
        padPackedSequence 0 (option1PackedWith batch sort_idx) := by
  have hidx : sort_idx = argsortDesc ((batch.map Prod.fst).map List.length) :=
    descSortIndex_unique _ sort_idx hvalid hstable
  have hmain : option2Packed batch = option1PackedWith batch sort_idx := by
    rw [hidx]
    simp only [option1PackedWith, option2Packed]
    rw [sortedBatch_fst batch]
    rw [← gather_padded_eq (batch.map Prod.fst)]
    rw [presortedLengths_eq (batch.map Prod.fst)]
    rw [← sortedLengths_eq (batch.map Prod.fst |>.map List.length)]
  exact ⟨hmain, by rw [hmain]⟩

/-- Witness for the amended C6: the batching notebook's batch, with the
index tensor `[1, 4, 0, 3, 2]` its `torch.sort` call actually returned
(which is descending and breaks the 3-3 length tie stably). -/
theorem packed_pipelines_agree_stable_witness :
    (IsDescSortIndex ((noteBatch.map Prod.fst).map List.length) [1, 4, 0, 3, 2] ∧
        StableTies ((noteBatch.map Prod.fst).map List.length) [1, 4, 0, 3, 2]) ∧
      (option2Packed noteBatch = option1PackedWith noteBatch [1, 4, 0, 3, 2] ∧
        padPackedSequence 0 (option2Packed noteBatch) =
          padPackedSequence 0 (option1PackedWith noteBatch [1, 4, 0, 3, 2])) :=
  ⟨⟨⟨by decide, by decide⟩, by unfold StableTies; decide⟩,
    packed_pipelines_agree_stable noteBatch [1, 4, 0, 3, 2] ⟨by decide, by decide⟩
      (by unfold StableTies; decide)⟩

/-! ## Theorems: packed RNN equals per-sample RNN -/

theorem getD_tail {γ : Type} (s : List γ) (pad : γ) (t : Nat) :
    s.tail.getD t pad = s.getD (t + 1) pad := by
  cases s <;> simp

/-- Row `t` of the padded tails is row `t + 1` of the padded batch. -/
theorem padRow_tail {γ : Type} (pad : γ) (seqs : List (List γ)) (t : Nat) :
    padRow pad (seqs.map List.tail) t = padRow pad seqs (t + 1) := by
  unfold padRow
  rw [List.map_map]
  apply List.map_congr_left
  intro s _
  simp only [Function.comp_def]
  exact getD_tail s pad t

/-- The batch still running at step `t` of the tails is the batch still
running at step `t + 1`. -/
theorem batchSize_tail {γ : Type} (seqs : List (List γ)) (t : Nat) :
    batchSize ((seqs.map List.tail).map List.length) t =
      batchSize (seqs.map List.length) (t + 1) := by
  unfold batchSize
  rw [List.map_map, List.countP_map, List.countP_map]
  apply List.countP_congr
  intro s _
  simp only [Function.comp_def, List.length_tail, decide_eq_true_eq]
  omega

/-- Taking one step off every sequence drops the longest length by
one. -/
theorem foldr_max_sub_one (L : List Nat) :
    (L.map (fun l => l - 1)).foldr Nat.max 0 = L.foldr Nat.max 0 - 1 := by
  induction L with
  | nil => rfl
  | cons a L ih =>
    simp only [List.map_cons, List.foldr_cons]
    rw [ih]
    show max (a - 1) (L.foldr Nat.max 0 - 1) = max a (L.foldr Nat.max 0) - 1
    rcases Nat.le_total a (L.foldr Nat.max 0) with h | h
    · rw [Nat.max_eq_right h, Nat.max_eq_right (by omega)]
    · rw [Nat.max_eq_left h, Nat.max_eq_left (by omega)]

/-- Taking one step off every sequence drops the longest length by
one. -/
theorem maxLen_tail {γ : Type} (seqs : List (List γ)) :
    maxLen (seqs.map List.tail) = maxLen seqs - 1 := by
  unfold maxLen
  rw [List.map_map]
  have hmap : seqs.map (List.length ∘ List.tail) =
      (seqs.map List.length).map (fun l => l - 1) := by
    rw [List.map_map]
    apply List.map_congr_left
    intro s _
    simp [Function.comp_def, List.length_tail]
  rw [hmap, foldr_max_sub_one]

/-- Every sequence length is bounded by the longest. -/
theorem length_le_maxLen {γ : Type} {seqs : List (List γ)} {s : List γ}
    (h : s ∈ seqs) : s.length ≤ maxLen seqs := by
  unfold maxLen
  induction seqs with
  | nil => cases h
  | cons u rest ih =>
    rcases List.mem_cons.mp h with rfl | hmem
    · simp only [List.map_cons, List.foldr_cons]
      exact Nat.le_max_left _ _
    · simp only [List.map_cons, List.foldr_cons]
      exact Nat.le_trans (ih hmem) (Nat.le_max_right _ _)

/-- When the longest sequence is empty every sequence is empty. -/
theorem all_nil_of_maxLen_zero {γ : Type} {seqs : List (List γ)}
    (h : maxLen seqs = 0) : ∀ s ∈ seqs, s = [] := by
  intro s hs
  have := length_le_maxLen hs
  rw [h] at this
  exact List.length_eq_zero.mp (Nat.le_zero.mp this)

/-- Peeling the first time step off the packed chunks of a padded
batch. -/
theorem packChunks_pad_succ {γ : Type} (pad : γ) (seqs : List (List γ)) (m : Nat)
    (hm : maxLen seqs = m + 1) :
    packChunks (padSequence pad seqs) (seqs.map List.length) =
      ((padRow pad seqs 0).take (batchSize (seqs.map List.length) 0)) ::
        packChunks (padSequence pad (seqs.map List.tail))
          ((seqs.map List.tail).map List.length) := by
  have hget : ∀ (u : List (List γ)) (t : Nat), t < maxLen u →
      (padSequence pad u).getD t [] = padRow pad u t := by
    intro u t ht
    unfold padSequence
    rw [listGetD_eq _ [] (by simpa using ht), List.getElem_map, List.getElem_range]
  have hmt : maxLen (seqs.map List.tail) = m := by
    rw [maxLen_tail, hm]
    omega
  unfold packChunks
  rw [show (seqs.map List.length).foldr Nat.max 0 = maxLen seqs from rfl, hm]
  rw [show ((seqs.map List.tail).map List.length).foldr Nat.max 0 =
    maxLen (seqs.map List.tail) from rfl, hmt]
  rw [List.range_succ_eq_map, List.map_cons, List.map_map]
  congr 1
  · rw [hget seqs 0 (by omega)]
  · apply List.map_congr_left
    intro t ht
    have htm : t < m := List.mem_range.mp ht
    simp only [Function.comp_def, Nat.succ_eq_add_one]
    rw [hget seqs (t + 1) (by omega), hget (seqs.map List.tail) t (by omega),
      padRow_tail, batchSize_tail]

/-- On a batch of empty sequences the per-sample folds leave the hidden
states alone. -/
theorem zipWith_foldl_nil_seqs {γ H : Type} (cell : γ → H → H) :
    ∀ (seqs : List (List γ)) (hs : List H), (∀ s ∈ seqs, s = []) →
      hs.length = seqs.length →
      List.zipWith (fun s h => List.foldl (fun h' a => cell a h') h s) seqs hs = hs := by
  intro seqs
  induction seqs with
  | nil =>
    intro hs _ hlen
    cases hs with
    | nil => rfl
    | cons h t => simp at hlen
  | cons s rest ih =>
    intro hs hall hlen
    rcases hs with _ | ⟨h, hs1⟩
    · simp at hlen
    rw [hall s (List.mem_cons_self _ _)]
    simp only [List.zipWith_cons_cons, List.foldl_nil]
    rw [ih hs1 (fun u hu => hall u (List.mem_cons_of_mem _ hu)) (by simpa using hlen)]

/-- Undoing one packed RNN step: the per-sample folds over the tails
starting from the stepped hidden states are the per-sample folds over
the full sequences. -/
theorem step_chunk_zip {γ H : Type} (cell : γ → H → H) (pad : γ) :
    ∀ (seqs : List (List γ)) (hs : List H),
      List.Pairwise (fun s t : List γ => t.length ≤ s.length) seqs →
      hs.length = seqs.length →
      List.zipWith (fun s h => List.foldl (fun h' a => cell a h') h s) (seqs.map List.tail)
          (rnnStepChunk cell hs
            ((padRow pad seqs 0).take (batchSize (seqs.map List.length) 0))) =
        List.zipWith (fun s h => List.foldl (fun h' a => cell a h') h s) seqs hs := by
  intro seqs
  induction seqs with
  | nil =>
    intro hs _ _
    rfl
  | cons s rest ih =>
    intro hs hsort hlen
    rcases hs with _ | ⟨h, hs1⟩
    · simp at hlen
    have hlen1 : hs1.length = rest.length := by
      simpa using hlen
    rcases hsort with _ | ⟨hrel, hrest⟩
    cases s with
    | nil =>
      have hall : ∀ u ∈ rest, u = [] :=
        fun u hu => List.length_eq_zero.mp (Nat.le_zero.mp (hrel u hu))
      have hbs : batchSize (([] :: rest).map List.length) 0 = 0 := by
        unfold batchSize
        rw [List.map_cons, List.countP_cons]
        simp only [List.length_nil, decide_eq_true_eq, Nat.lt_irrefl, if_false,
          Nat.add_zero]
        rw [List.countP_eq_zero.mpr]
        intro l hl
        obtain ⟨u, hu, rfl⟩ := List.mem_map.mp hl
        rw [hall u hu]
        simp
      rw [hbs]
      have hstep : rnnStepChunk cell (h :: hs1)
          ((padRow pad ([] :: rest) 0).take 0) = h :: hs1 := by
        simp [rnnStepChunk]
      rw [hstep]
      have hmt : rest.map List.tail = rest := by
        have h1 : rest.map List.tail = rest.map id :=
          List.map_congr_left (fun u hu => by rw [hall u hu]; rfl)
        rw [h1, List.map_id]
      simp only [List.map_cons, List.tail_nil, List.zipWith_cons_cons, List.foldl_nil,
        hmt]
    | cons a as =>
      have hbs : batchSize (((a :: as) :: rest).map List.length) 0 =
          batchSize (rest.map List.length) 0 + 1 := by
        unfold batchSize
        rw [List.map_cons, List.countP_cons]
        simp
      have hchunk : (padRow pad ((a :: as) :: rest) 0).take
          (batchSize (rest.map List.length) 0 + 1) =
          a :: ((padRow pad rest 0).take (batchSize (rest.map List.length) 0)) := by
        unfold padRow
        rw [List.map_cons]
        simp [List.take_succ_cons]
      rw [hbs, hchunk]
      have hstep : rnnStepChunk cell (h :: hs1)
          (a :: ((padRow pad rest 0).take (batchSize (rest.map List.length) 0))) =
          cell a h ::
            rnnStepChunk cell hs1
              ((padRow pad rest 0).take (batchSize (rest.map List.length) 0)) := by
        unfold rnnStepChunk
        simp [List.take_succ_cons, List.drop_succ_cons]
      rw [hstep]
      simp only [List.map_cons, List.tail_cons, List.zipWith_cons_cons, List.foldl_cons]
      congr 1
      exact ih hs1 hrest hlen1

/-- One packed step keeps the number of hidden states. -/
theorem rnnStepChunk_length {γ H : Type} (cell : γ → H → H) (hs : List H)
    (chunk : List γ) (h : chunk.length ≤ hs.length) :
    (rnnStepChunk cell hs chunk).length = hs.length := by
  unfold rnnStepChunk
  simp only [List.length_append, List.length_zipWith, List.length_take,
    List.length_drop]
  omega

/-- Running the RNN over the packed chunks computes, for each sequence,
the fold of the cell over that sequence from its own initial hidden
state. -/
theorem runPacked_eq_zip {γ H : Type} (cell : γ → H → H) (pad : γ) :
    ∀ (m : Nat) (seqs : List (List γ)) (hs : List H),
      maxLen seqs = m →
      List.Pairwise (fun s t : List γ => t.length ≤ s.length) seqs →
      hs.length = seqs.length →
      runPackedRNN cell (packChunks (padSequence pad seqs) (seqs.map List.length)) hs =
        List.zipWith (fun s h => List.foldl (fun h' a => cell a h') h s) seqs hs := by
  intro m
  induction m with
  | zero =>
    intro seqs hs hm hsort hlen
    have hchunks : packChunks (padSequence pad seqs) (seqs.map List.length) = [] := by
      unfold packChunks
      rw [show (seqs.map List.length).foldr Nat.max 0 = maxLen seqs from rfl, hm]
      rfl
    rw [hchunks, zipWith_foldl_nil_seqs cell seqs hs (all_nil_of_maxLen_zero hm) hlen]
    rfl
  | succ m ih =>
    intro seqs hs hm hsort hlen
    rw [packChunks_pad_succ pad seqs m hm]
    have hchlen : ((padRow pad seqs 0).take
        (batchSize (seqs.map List.length) 0)).length ≤ hs.length := by
      simp only [List.length_take, padRow, List.length_map]
      omega
    have hrun : runPackedRNN cell
        (((padRow pad seqs 0).take (batchSize (seqs.map List.length) 0)) ::
          packChunks (padSequence pad (seqs.map List.tail))
            ((seqs.map List.tail).map List.length)) hs =
        runPackedRNN cell
          (packChunks (padSequence pad (seqs.map List.tail))
            ((seqs.map List.tail).map List.length))
          (rnnStepChunk cell hs
            ((padRow pad seqs 0).take (batchSize (seqs.map List.length) 0))) := rfl
    rw [hrun]
    rw [ih (seqs.map List.tail) _
      (by rw [maxLen_tail, hm]; omega)
      (hsort.map List.tail (fun s t hst => by
        simp only [List.length_tail]
        omega))
      (by
        rw [rnnStepChunk_length cell hs _ hchlen, hlen, List.length_map])]
    exact step_chunk_zip cell pad seqs hs hsort hlen

/-- With the same initial hidden state for every batch element the
per-element folds are a map. -/
theorem zipWith_foldl_replicate {γ H : Type} (cell : γ → H → H) (h0 : H)
    (seqs : List (List γ)) :
    List.zipWith (fun s h => List.foldl (fun h' a => cell a h') h s) seqs
        (List.replicate seqs.length h0) =
      seqs.map (fun s => List.foldl (fun h' a => cell a h') h0 s) := by
  induction seqs with
  | nil => rfl
  | cons s rest ih =>
    simp only [List.length_cons, List.replicate_succ, List.zipWith_cons_cons,
      List.map_cons]
    rw [ih]

/-- Column `j` of the padded tensor truncated to its sequence's true
length is the sequence itself. -/
theorem padded_column_take {γ : Type} (pad : γ) (seqs : List (List γ)) {j : Nat}
    (hj : j < seqs.length) :
    ((padSequence pad seqs).map (fun r => r.getD j pad)).take
        ((seqs.getD j []).length) = seqs.getD j [] := by
  unfold padSequence
  rw [List.map_map]
  have hfun : ∀ t ∈ List.range (maxLen seqs),
      ((fun r => r.getD j pad) ∘ padRow pad seqs) t = (seqs.getD j []).getD t pad := by
    intro t _
    simp only [Function.comp_def]
    unfold padRow
    rw [listGetD_eq _ pad (by simpa using hj), List.getElem_map, listGetD_eq _ [] hj]
  rw [List.map_congr_left hfun, ← List.map_take, List.take_range]
  have hmem : seqs.getD j [] ∈ seqs := by
    rw [listGetD_eq _ [] hj]
    exact List.getElem_mem hj
  rw [Nat.min_eq_left (length_le_maxLen hmem), map_getD_range]

/-- The per-sample loop computes, for each sequence, the fold of the
cell over that sequence from the shared initial hidden state. -/
theorem perSample_eq_map {γ H : Type} (cell : γ → H → H) (pad : γ)
    (seqs : List (List γ)) (h0 : H) :
    perSampleHiddens cell pad seqs h0 = seqs.map (fun s => rnnFinalHidden cell h0 s) := by
  unfold perSampleHiddens
  rw [List.map_congr_left (fun j hj => by
    rw [padded_column_take pad seqs (List.mem_range.mp hj)])]
  rw [show (fun j => rnnFinalHidden cell h0 (seqs.getD j [])) =
    ((fun s => rnnFinalHidden cell h0 s) ∘ (fun j => seqs.getD j [])) from rfl]
  rw [← List.map_map, map_getD_range]

/-- C4: for every batch of sequences sorted by descending length, packed
with its true lengths, and a shared initial hidden state, the final
hidden state the packed batched run produces for each sequence equals
the one produced by running the RNN on that sequence alone, truncated to
its true length. -/
theorem packed_rnn_eq_per_sample {γ H : Type} (cell : γ → H → H) (pad : γ) (h0 : H)
    (seqs : List (List γ))
    (hsorted : List.Pairwise (fun s t : List γ => t.length ≤ s.length) seqs) :
    runPackedRNN cell (packChunks (padSequence pad seqs) (seqs.map List.length))
        (List.replicate seqs.length h0) =
      perSampleHiddens cell pad seqs h0 := by
  rw [runPacked_eq_zip cell pad (maxLen seqs) seqs _ rfl hsorted
    (List.length_replicate _ _)]
  rw [zipWith_foldl_replicate, perSample_eq_map]
  rfl

/-- Witness for C4: the hidden-state notebook's test batch with a
concrete affine cell. -/
theorem packed_rnn_eq_per_sample_witness :
    List.Pairwise (fun s t : List Int => t.length ≤ s.length) testInputsRNN ∧
      runPackedRNN affineCell
          (packChunks (padSequence 0 testInputsRNN) (testInputsRNN.map List.length))
          (List.replicate testInputsRNN.length 0) =
        perSampleHiddens affineCell 0 testInputsRNN 0 :=
  ⟨by decide, packed_rnn_eq_per_sample affineCell 0 0 testInputsRNN (by decide)⟩

/-- C7: on a batch whose third sequence is strictly shorter than the
longest, running the RNN directly on the padded tensor without packing
(every time-step row in full) gives that sequence a final hidden state
different from the correct per-sample computation truncated at its true
length: the recurrence keeps propagating through the padding. -/
theorem unpacked_rnn_propagates_padding :
    (testInputsRNN.getD 2 []).length < maxLen testInputsRNN ∧
      (runPackedRNN affineCell (padSequence 0 testInputsRNN)
          (List.replicate testInputsRNN.length 0)).getD 2 0 ≠
        (perSampleHiddens affineCell 0 testInputsRNN (0 : Int)).getD 2 0 := by
  constructor
  · decide
  · decide
